import Mathlib

/-!
Shallow embedding of the go-statsd client's buffering/dispatch pipeline
(buffers.go, client loops, and the metric-emission methods), together with
theorems checking the specification's claims about it.

Modelling conventions:
* Go byte slices are `List Char` (the client only ever appends ASCII bytes,
  one `Char` per byte), so `List.length` is the byte length.
* Go channels (`bufPool`, `sendQueue`) are FIFO lists bounded by the
  capacities stored in the options; a non-blocking send appends at the back
  when there is room, a non-blocking receive pops the head.
* The two `int64` loss counters are `Int`; the source only ever adds 1 to
  them or atomically swaps them with 0, and no claim concerns 64-bit
  wrap-around, so two's-complement reduction is not modelled.
* `float64` arguments enter the embedding as the two observations the source
  makes of them: the branch test `value < 0` and the rendering produced by
  `strconv.AppendFloat(buf, value, 'f', -1, 64)`.
* `ClientState.dispatched` is a history (ghost) field that is not in the
  source: it records every buffer that was actually accepted by the send
  queue, so that claims about "every buffer handed to the dispatch queue"
  quantify over the whole history of a run, not just the queue's current
  content.
-/

namespace GoStatsd

/-- Client configuration (`ClientOptions` in the source), restricted to the
fields the buffering/dispatch pipeline reads.  `metricPfx` is the source's
`MetricPrefix` field. -/
structure Options where
  metricPfx : List Char
  maxPacketSize : Nat
  bufPoolCapacity : Nat
  sendQueueCapacity : Nat
deriving DecidableEq

/-- A `float64` argument as the source observes it: `neg` is the result of
the Go comparison `value < 0`, and `render` is the byte output of
`strconv.AppendFloat(buf, value, 'f', -1, 64)` for that value.  Floating
point arithmetic itself is not re-modelled; no claim depends on it. -/
structure Float64 where
  neg : Bool
  render : List Char
deriving DecidableEq

/-- The state of a `Client` (client.go): aggregation buffer, buffer-pool
channel, send-queue channel, the two loss counters, and the shutdown
channel modelled as a closed-flag.  `dispatched` is the ghost history of
buffers accepted by `sendQueue` (see module docstring). -/
structure ClientState where
  options : Options
  buf : List Char
  bufPool : List (List Char)
  sendQueue : List (List Char)
  lostPacketsPeriod : Int
  lostPacketsOverall : Int
  shutdown : Bool
  dispatched : List (List Char)
deriving DecidableEq

/-- Function `flushBuf` (buffers.go): `sendBuf := c.buf[0:length]`,
`tail := c.buf[length:]`; a replacement buffer is obtained by a non-blocking
receive from `bufPool` (the reused buffer is truncated to `c.buf[0:0]`, so
its old content never matters and popping the pool's head models both the
reuse and, when the pool is empty, the fresh allocation — both give an empty
buffer); `tail` is copied into the new buffer; finally `sendBuf` is offered
to `sendQueue` by a non-blocking send, and on failure both loss counters are
incremented and the data is dropped. -/
def flushBuf (c : ClientState) (length : Nat) : ClientState :=
  let sendBuf := c.buf.take length
  let tail := c.buf.drop length
  if c.sendQueue.length < c.options.sendQueueCapacity then
    { c with buf := tail, bufPool := c.bufPool.tail,
             sendQueue := c.sendQueue ++ [sendBuf],
             dispatched := c.dispatched ++ [sendBuf] }
  else
    { c with buf := tail, bufPool := c.bufPool.tail,
             lostPacketsPeriod := c.lostPacketsPeriod + 1,
             lostPacketsOverall := c.lostPacketsOverall + 1 }

/-- Function `checkBuf` (buffers.go): flush up to `lastLen` bytes when the
buffer exceeds `MaxPacketSize`. -/
def checkBuf (c : ClientState) (lastLen : Nat) : ClientState :=
  if c.options.maxPacketSize < c.buf.length then flushBuf c lastLen else c

/-- Common shape of every metric-emission method (client.go): under
`bufLock`, record `lastLen := len(c.buf)`, append the encoded line, then
`checkBuf(lastLen)`. -/
def appendLine (c : ClientState) (line : List Char) : ClientState :=
  checkBuf { c with buf := c.buf ++ line } c.buf.length

/-- Line appended by `Incr` (client.go):
`MetricPrefix ++ stat ++ ":" ++ strconv.AppendInt(count,10) ++ "|c\n"`. -/
def incrLine (o : Options) (stat : List Char) (count : Int) : List Char :=
  o.metricPfx ++ stat ++ [':'] ++ (toString count).data ++ ['|', 'c', '\n']

/-- Line appended by `Timing` (client.go). -/
def timingLine (o : Options) (stat : List Char) (delta : Int) : List Char :=
  o.metricPfx ++ stat ++ [':'] ++ (toString delta).data ++ ['|', 'm', 's', '\n']

/-- Line appended by `PrecisionTiming` (client.go); `delta` carries the
rendering of `float64(delta)/float64(time.Millisecond)`. -/
def ptimingLine (o : Options) (stat : List Char) (delta : Float64) : List Char :=
  o.metricPfx ++ stat ++ [':'] ++ delta.render ++ ['|', 'm', 's', '\n']

/-- Line appended by `igauge` (client.go): the optional `sign` bytes sit
between the `:` and the decimal rendering of `value`. -/
def igaugeLine (o : Options) (stat : List Char) (sign : List Char) (value : Int) : List Char :=
  o.metricPfx ++ stat ++ [':'] ++ sign ++ (toString value).data ++ ['|', 'g', '\n']

/-- Line appended by `fgauge` (client.go). -/
def fgaugeLine (o : Options) (stat : List Char) (sign : List Char) (value : Float64) : List Char :=
  o.metricPfx ++ stat ++ [':'] ++ sign ++ value.render ++ ['|', 'g', '\n']

/-- Line appended by `SetAdd` (client.go). -/
def setLine (o : Options) (stat : List Char) (value : List Char) : List Char :=
  o.metricPfx ++ stat ++ [':'] ++ value ++ ['|', 's', '\n']

/-- Method `Incr` (client.go): no-op when `count == 0`, otherwise append the
counter line and run the overflow check. -/
def Incr (c : ClientState) (stat : List Char) (count : Int) : ClientState :=
  if count ≠ 0 then appendLine c (incrLine c.options stat count) else c

/-- Method `Decr` (client.go): `c.Incr(stat, -count)`. -/
def Decr (c : ClientState) (stat : List Char) (count : Int) : ClientState :=
  Incr c stat (-count)

/-- Method `Timing` (client.go). -/
def Timing (c : ClientState) (stat : List Char) (delta : Int) : ClientState :=
  appendLine c (timingLine c.options stat delta)

/-- Method `PrecisionTiming` (client.go). -/
def PrecisionTiming (c : ClientState) (stat : List Char) (delta : Float64) : ClientState :=
  appendLine c (ptimingLine c.options stat delta)

/-- Method `igauge` (client.go). -/
def igauge (c : ClientState) (stat : List Char) (sign : List Char) (value : Int) : ClientState :=
  appendLine c (igaugeLine c.options stat sign value)

/-- Method `fgauge` (client.go). -/
def fgauge (c : ClientState) (stat : List Char) (sign : List Char) (value : Float64) : ClientState :=
  appendLine c (fgaugeLine c.options stat sign value)

/-- Method `Gauge` (client.go): `if value < 0 { igauge(stat, nil, 0) };
igauge(stat, nil, value)`. -/
def Gauge (c : ClientState) (stat : List Char) (value : Int) : ClientState :=
  igauge (if value < 0 then igauge c stat [] 0 else c) stat [] value

/-- Method `GaugeDelta` (client.go): a negative delta is sent as-is, a
non-negative one gets an explicit leading `+`. -/
def GaugeDelta (c : ClientState) (stat : List Char) (value : Int) : ClientState :=
  if value < 0 then igauge c stat [] value else igauge c stat ['+'] value

/-- Method `FGauge` (client.go): `if value < 0 { igauge(stat, nil, 0) };
fgauge(stat, nil, value)`. -/
def FGauge (c : ClientState) (stat : List Char) (value : Float64) : ClientState :=
  fgauge (if value.neg then igauge c stat [] 0 else c) stat [] value

/-- Method `FGaugeDelta` (client.go). -/
def FGaugeDelta (c : ClientState) (stat : List Char) (value : Float64) : ClientState :=
  if value.neg then fgauge c stat [] value else fgauge c stat ['+'] value

/-- Method `SetAdd` (client.go). -/
def SetAdd (c : ClientState) (stat : List Char) (value : List Char) : ClientState :=
  appendLine c (setLine c.options stat value)

/-- The flush performed by `flushLoop` (transport.go) on a flush-timer tick
and, identically, on the shutdown path: flush the whole buffer when it is
non-empty. -/
def flushTick (c : ClientState) : ClientState :=
  if 0 < c.buf.length then flushBuf c c.buf.length else c

/-- The non-blocking return of a transmitted buffer to `bufPool`
(`sendLoop`, transport.go): when the pool is full the buffer is abandoned. -/
def returnToPool (c : ClientState) (buf : List Char) : ClientState :=
  if c.bufPool.length < c.options.bufPoolCapacity then
    { c with bufPool := c.bufPool ++ [buf] }
  else c

/-- One dequeue iteration of `sendLoop` (transport.go).  `writeOk` is
whether `sock.Write` succeeds.  A dequeued non-empty buffer is written minus
its final byte (`buf[0:len(buf)-1]`); the written datagram is the first
component of the result (`none` when nothing was transmitted).  On a write
error the socket is closed and the loop jumps to WAIT/RECONNECT: the
datagram is lost, the buffer is not re-queued and not returned to the pool,
and no counter is touched. -/
def sendStep (c : ClientState) (writeOk : Bool) : Option (List Char) × ClientState :=
  match c.sendQueue with
  | [] => (none, c)
  | buf :: rest =>
    if 0 < buf.length then
      if writeOk then
        (some buf.dropLast, returnToPool { c with sendQueue := rest } buf)
      else
        (none, { c with sendQueue := rest })
    else
      (none, returnToPool { c with sendQueue := rest } buf)

/-- One report-timer tick of `reportLoop` (transport.go):
`lostPeriod := atomic.SwapInt64(&c.lostPacketsPeriod, 0)`, then a diagnostic
record is emitted iff `lostPeriod > 0`.  The second component is whether the
diagnostic record was emitted. -/
def reportTick (c : ClientState) : ClientState × Bool :=
  let lostPeriod := c.lostPacketsPeriod
  ({ c with lostPacketsPeriod := 0 }, decide (0 < lostPeriod))

/-- Method `GetLostPackets` (client.go). -/
def getLostPackets (c : ClientState) : Int :=
  c.lostPacketsOverall

/-- Go semantics of `close(ch)` on the `shutdown` channel: closing an open
channel succeeds, closing an already-closed channel panics ("close of closed
channel").  The panic is the error branch. -/
def closeChan (closed : Bool) : Except Unit Bool :=
  if closed then Except.error () else Except.ok true

/-- Method `Close` (client.go): `close(c.shutdown); c.shutdownWg.Wait();
return nil`.  The propagated Go panic from a double close is the error
branch. -/
def Close (c : ClientState) : Except Unit ClientState :=
  match closeChan c.shutdown with
  | Except.error e => Except.error e
  | Except.ok b => Except.ok { c with shutdown := b }

/-- The client state `NewClient` (client.go) starts from: empty buffer,
empty pool and queue, zero loss counters, open shutdown channel. -/
def newClient (o : Options) : ClientState :=
  { options := o, buf := [], bufPool := [], sendQueue := [],
    lostPacketsPeriod := 0, lostPacketsOverall := 0, shutdown := false,
    dispatched := [] }

/-- One operation of the pipeline: a metric-emission call, a flush-timer (or
shutdown) flush, one send-worker iteration, or a report tick. -/
inductive Op where
  | incr (stat : List Char) (count : Int)
  | decr (stat : List Char) (count : Int)
  | timing (stat : List Char) (delta : Int)
  | precisionTiming (stat : List Char) (delta : Float64)
  | gauge (stat : List Char) (value : Int)
  | gaugeDelta (stat : List Char) (value : Int)
  | fgaugeOp (stat : List Char) (value : Float64)
  | fgaugeDeltaOp (stat : List Char) (value : Float64)
  | setAdd (stat : List Char) (value : List Char)
  | flushTick
  | sendStep (writeOk : Bool)
  | reportTick
deriving DecidableEq

/-- State transition of one operation. -/
def apply (op : Op) (c : ClientState) : ClientState :=
  match op with
  | Op.incr stat count => Incr c stat count
  | Op.decr stat count => Decr c stat count
  | Op.timing stat delta => Timing c stat delta
  | Op.precisionTiming stat delta => PrecisionTiming c stat delta
  | Op.gauge stat value => Gauge c stat value
  | Op.gaugeDelta stat value => GaugeDelta c stat value
  | Op.fgaugeOp stat value => FGauge c stat value
  | Op.fgaugeDeltaOp stat value => FGaugeDelta c stat value
  | Op.setAdd stat value => SetAdd c stat value
  | Op.flushTick => flushTick c
  | Op.sendStep writeOk => (sendStep c writeOk).2
  | Op.reportTick => (reportTick c).1

/-- The lines an operation appends to the aggregation buffer (empty for the
non-emission operations and for a zero counter increment). -/
def linesOf (o : Options) : Op → List (List Char)
  | Op.incr stat count => if count = 0 then [] else [incrLine o stat count]
  | Op.decr stat count => if count = 0 then [] else [incrLine o stat (-count)]
  | Op.timing stat delta => [timingLine o stat delta]
  | Op.precisionTiming stat delta => [ptimingLine o stat delta]
  | Op.gauge stat value =>
      if value < 0 then [igaugeLine o stat [] 0, igaugeLine o stat [] value]
      else [igaugeLine o stat [] value]
  | Op.gaugeDelta stat value =>
      if value < 0 then [igaugeLine o stat [] value] else [igaugeLine o stat ['+'] value]
  | Op.fgaugeOp stat value =>
      if value.neg then [igaugeLine o stat [] 0, fgaugeLine o stat [] value]
      else [fgaugeLine o stat [] value]
  | Op.fgaugeDeltaOp stat value =>
      if value.neg then [fgaugeLine o stat [] value] else [fgaugeLine o stat ['+'] value]
  | Op.setAdd stat value => [setLine o stat value]
  | Op.flushTick => []
  | Op.sendStep _ => []
  | Op.reportTick => []

/-- Run a sequence of operations from the fresh client state. -/
def run (o : Options) (ops : List Op) : ClientState :=
  ops.foldl (fun c op => apply op c) (newClient o)

/-- A complete metric line: non-empty and terminated by the newline the
encoder always appends. -/
def EndsNL (l : List Char) : Prop := l ≠ [] ∧ l.getLast? = some '\n'

instance endsNLDecidable (l : List Char) : Decidable (EndsNL l) :=
  inferInstanceAs (Decidable (l ≠ [] ∧ l.getLast? = some '\n'))

/-- A well-formed packet: a concatenation of complete newline-terminated
lines. -/
def IsPacket (b : List Char) : Prop :=
  ∃ ls : List (List Char), (∀ l ∈ ls, EndsNL l) ∧ b = ls.flatten

/-- Invariant backing the (amended) packet-size bound: options fixed, buffer
within the bound, every buffer ever handed to the queue within the bound. -/
def Bounded (o : Options) (c : ClientState) : Prop :=
  c.options = o ∧ c.buf.length ≤ o.maxPacketSize ∧
    ∀ q ∈ c.dispatched, q.length ≤ o.maxPacketSize

/-- Invariant backing the packet-shape claim: the aggregation buffer and
every buffer ever handed to the queue are concatenations of complete
newline-terminated lines. -/
def PacketInv (c : ClientState) : Prop :=
  IsPacket c.buf ∧ ∀ q ∈ c.dispatched, IsPacket q

/-- Options of the run refuting the unamended packet-size claim: max packet
size of a single byte. -/
def cexOpts : Options :=
  { metricPfx := [], maxPacketSize := 1, bufPoolCapacity := 4, sendQueueCapacity := 4 }

/-- Run refuting the unamended packet-size claim: two increments whose
6-byte lines each exceed the 1-byte max packet size. -/
def cexOps : List Op := [Op.incr ['a'] 1, Op.incr ['a'] 1]

/-- Options for the packet-size witness run. -/
def witOpts1 : Options :=
  { metricPfx := [], maxPacketSize := 64, bufPoolCapacity := 4, sendQueueCapacity := 4 }

/-- Operations for the packet-size witness run. -/
def witOps1 : List Op := [Op.incr ['a'] 1, Op.incr ['b'] 2, Op.flushTick]

/-- State for the overflow-split witness: a 6-byte line already buffered,
max packet size 8. -/
def c2state : ClientState :=
  { options := { metricPfx := [], maxPacketSize := 8, bufPoolCapacity := 2, sendQueueCapacity := 2 },
    buf := ['x', ':', '1', '|', 'c', '\n'], bufPool := [], sendQueue := [],
    lostPacketsPeriod := 0, lostPacketsOverall := 0, shutdown := false, dispatched := [] }

/-- Overflowing line for the overflow-split witness. -/
def c2line : List Char := ['y', ':', '2', '|', 'c', '\n']

/-- State for the full-queue witness: send-queue capacity zero, so every
flush attempt finds the queue full. -/
def c3state : ClientState :=
  { options := { metricPfx := [], maxPacketSize := 4, bufPoolCapacity := 1, sendQueueCapacity := 0 },
    buf := ['a', ':', '1', '|', 'c', '\n'], bufPool := [], sendQueue := [],
    lostPacketsPeriod := 0, lostPacketsOverall := 0, shutdown := false, dispatched := [] }

/-- State for the write-error witness: one queued buffer, non-zero loss
counters to make the frame visible. -/
def c4state : ClientState :=
  { options := { metricPfx := [], maxPacketSize := 1400, bufPoolCapacity := 2, sendQueueCapacity := 8 },
    buf := [], bufPool := [], sendQueue := [['a', ':', '1', '|', 'c', '\n']],
    lostPacketsPeriod := 3, lostPacketsOverall := 5, shutdown := false, dispatched := [] }

/-- Options for the gauge witness. -/
def witOpts6 : Options :=
  { metricPfx := ['p', '.'], maxPacketSize := 100, bufPoolCapacity := 2, sendQueueCapacity := 2 }

/-- Options for the gauge-delta witness. -/
def witOpts7 : Options :=
  { metricPfx := ['q', '.'], maxPacketSize := 100, bufPoolCapacity := 2, sendQueueCapacity := 2 }

/-- Options for the packet-shape witness run. -/
def c8opts : Options :=
  { metricPfx := [], maxPacketSize := 32, bufPoolCapacity := 4, sendQueueCapacity := 4 }

/-- Operations for the packet-shape witness run. -/
def c8ops : List Op := [Op.incr ['a'] 1, Op.flushTick]

/-- State for the packet-shape witness dequeue: one queued 6-byte buffer. -/
def c8state : ClientState :=
  { options := c8opts, buf := [], bufPool := [],
    sendQueue := [['a', ':', '1', '|', 'c', '\n']],
    lostPacketsPeriod := 0, lostPacketsOverall := 0, shutdown := false, dispatched := [] }

/-- Options for the close witness. -/
def witOpts10 : Options :=
  { metricPfx := [], maxPacketSize := 1400, bufPoolCapacity := 2, sendQueueCapacity := 8 }

theorem flushBuf_buf (c : ClientState) (n : Nat) : (flushBuf c n).buf = c.buf.drop n := by
  unfold flushBuf; split <;> rfl

theorem flushBuf_options (c : ClientState) (n : Nat) : (flushBuf c n).options = c.options := by
  unfold flushBuf; split <;> rfl

theorem flushBuf_shutdown (c : ClientState) (n : Nat) : (flushBuf c n).shutdown = c.shutdown := by
  unfold flushBuf; split <;> rfl

theorem flushBuf_overall_mono (c : ClientState) (n : Nat) :
    c.lostPacketsOverall ≤ (flushBuf c n).lostPacketsOverall := by
  unfold flushBuf; split
  · exact le_refl _
  · simp only []
    omega

theorem flushBuf_dispatched (c : ClientState) (n : Nat) (q : List Char)
    (h : q ∈ (flushBuf c n).dispatched) : q ∈ c.dispatched ∨ q = c.buf.take n := by
  unfold flushBuf at h
  split at h
  · simp only [List.mem_append, List.mem_singleton] at h
    exact h
  · exact Or.inl h

theorem checkBuf_options (c : ClientState) (n : Nat) : (checkBuf c n).options = c.options := by
  unfold checkBuf; split
  · exact flushBuf_options c n
  · rfl

theorem appendLine_options (c : ClientState) (l : List Char) :
    (appendLine c l).options = c.options := by
  unfold appendLine
  exact checkBuf_options _ _

theorem appendLine_eq (c : ClientState) (line : List Char) :
    appendLine c line =
      if c.options.maxPacketSize < c.buf.length + line.length then
        flushBuf { c with buf := c.buf ++ line } c.buf.length
      else { c with buf := c.buf ++ line } := by
  unfold appendLine checkBuf
  simp [List.length_append]

theorem appendLine_no_overflow (c : ClientState) (line : List Char)
    (h : c.buf.length + line.length ≤ c.options.maxPacketSize) :
    appendLine c line = { c with buf := c.buf ++ line } := by
  rw [appendLine_eq, if_neg (by omega)]

theorem appendLine_overflow (c : ClientState) (line : List Char)
    (h : c.options.maxPacketSize < c.buf.length + line.length) :
    appendLine c line = flushBuf { c with buf := c.buf ++ line } c.buf.length := by
  rw [appendLine_eq, if_pos h]

theorem appendLine_split_buf (c : ClientState) (line : List Char)
    (h : c.options.maxPacketSize < c.buf.length + line.length) :
    (appendLine c line).buf = line := by
  rw [appendLine_overflow c line h, flushBuf_buf]
  exact List.drop_left c.buf line

theorem appendLine_split_queue (c : ClientState) (line : List Char)
    (h : c.options.maxPacketSize < c.buf.length + line.length)
    (hroom : c.sendQueue.length < c.options.sendQueueCapacity) :
    (appendLine c line).sendQueue = c.sendQueue ++ [c.buf] := by
  rw [appendLine_overflow c line h]
  unfold flushBuf
  rw [if_pos hroom]
  simp [List.take_left]

theorem appendLine_bounded (o : Options) (c : ClientState) (line : List Char)
    (hc : Bounded o c) (hl : line.length ≤ o.maxPacketSize) :
    Bounded o (appendLine c line) := by
  obtain ⟨ho, hbuf, hdisp⟩ := hc
  by_cases hover : c.options.maxPacketSize < c.buf.length + line.length
  · rw [appendLine_overflow c line hover]
    refine ⟨by rw [flushBuf_options]; exact ho, ?_, ?_⟩
    · rw [flushBuf_buf]
      simp only [List.drop_left]
      exact hl
    · intro q hq
      rcases flushBuf_dispatched _ _ _ hq with h | h
      · exact hdisp q h
      · subst h
        simp only [List.take_left]
        exact hbuf
  · rw [appendLine_no_overflow c line (by omega)]
    refine ⟨ho, ?_, hdisp⟩
    simp only [List.length_append]
    rw [ho] at hover
    omega

theorem flushTick_bounded (o : Options) (c : ClientState) (hc : Bounded o c) :
    Bounded o (flushTick c) := by
  obtain ⟨ho, hbuf, hdisp⟩ := hc
  unfold flushTick
  split
  · refine ⟨by rw [flushBuf_options]; exact ho, ?_, ?_⟩
    · rw [flushBuf_buf]
      simp
    · intro q hq
      rcases flushBuf_dispatched _ _ _ hq with h | h
      · exact hdisp q h
      · subst h
        simpa using hbuf
  · exact ⟨ho, hbuf, hdisp⟩

theorem returnToPool_frame (c : ClientState) (b : List Char) :
    (returnToPool c b).options = c.options ∧ (returnToPool c b).buf = c.buf ∧
    (returnToPool c b).dispatched = c.dispatched ∧
    (returnToPool c b).sendQueue = c.sendQueue ∧
    (returnToPool c b).lostPacketsPeriod = c.lostPacketsPeriod ∧
    (returnToPool c b).lostPacketsOverall = c.lostPacketsOverall ∧
    (returnToPool c b).shutdown = c.shutdown := by
  unfold returnToPool; split <;> simp

theorem sendStep_frame (c : ClientState) (writeOk : Bool) :
    ((sendStep c writeOk).2.options = c.options ∧ (sendStep c writeOk).2.buf = c.buf ∧
     (sendStep c writeOk).2.dispatched = c.dispatched) ∧
    (sendStep c writeOk).2.lostPacketsPeriod = c.lostPacketsPeriod ∧
    (sendStep c writeOk).2.lostPacketsOverall = c.lostPacketsOverall := by
  unfold sendStep
  rcases hq : c.sendQueue with _ | ⟨b, rest⟩
  · simp
  · simp only []
    split
    · split
      · have := returnToPool_frame { c with sendQueue := rest } b
        simp_all
      · simp
    · have := returnToPool_frame { c with sendQueue := rest } b
      simp_all

theorem bounded_of_frame (o : Options) {c d : ClientState}
    (hopt : d.options = c.options) (hbuf : d.buf = c.buf)
    (hdisp : d.dispatched = c.dispatched) (hc : Bounded o c) : Bounded o d := by
  obtain ⟨h1, h2, h3⟩ := hc
  refine ⟨hopt.trans h1, ?_, ?_⟩
  · rw [hbuf]; exact h2
  · rw [hdisp]; exact h3

theorem apply_bounded (o : Options) (op : Op) (c : ClientState) (hc : Bounded o c)
    (hl : ∀ l ∈ linesOf o op, l.length ≤ o.maxPacketSize) :
    Bounded o (apply op c) := by
  have ho : c.options = o := hc.1
  cases op with
  | incr stat count =>
      by_cases hcnt : count = 0
      · simpa [apply, Incr, hcnt] using hc
      · rw [apply, Incr, if_pos hcnt]
        exact appendLine_bounded o c _ hc
          (by rw [ho]; exact hl _ (by simp [linesOf, hcnt]))
  | decr stat count =>
      by_cases hcnt : count = 0
      · simpa [apply, Decr, Incr, hcnt] using hc
      · rw [apply, Decr, Incr, if_pos (neg_ne_zero.mpr hcnt)]
        exact appendLine_bounded o c _ hc
          (by rw [ho]; exact hl _ (by simp [linesOf, hcnt]))
  | timing stat delta =>
      rw [apply, Timing]
      exact appendLine_bounded o c _ hc (by rw [ho]; exact hl _ (by simp [linesOf]))
  | precisionTiming stat delta =>
      rw [apply, PrecisionTiming]
      exact appendLine_bounded o c _ hc (by rw [ho]; exact hl _ (by simp [linesOf]))
  | gauge stat value =>
      rw [apply, Gauge]
      by_cases hv : value < 0
      · rw [if_pos hv, igauge, igauge, appendLine_options, ho]
        have h1 : Bounded o (appendLine c (igaugeLine o stat [] 0)) :=
          appendLine_bounded o c _ hc (hl _ (by simp [linesOf, hv]))
        exact appendLine_bounded o _ _ h1
          (hl _ (by simp [linesOf, hv]))
      · rw [if_neg hv, igauge]
        exact appendLine_bounded o c _ hc
          (by rw [ho]; exact hl _ (by simp [linesOf, hv]))
  | gaugeDelta stat value =>
      rw [apply, GaugeDelta]
      by_cases hv : value < 0
      · rw [if_pos hv, igauge]
        exact appendLine_bounded o c _ hc
          (by rw [ho]; exact hl _ (by simp [linesOf, hv]))
      · rw [if_neg hv, igauge]
        exact appendLine_bounded o c _ hc
          (by rw [ho]; exact hl _ (by simp [linesOf, hv]))
  | fgaugeOp stat value =>
      rw [apply, FGauge]
      by_cases hv : value.neg = true
      · rw [if_pos hv, fgauge, igauge, appendLine_options, ho]
        have h1 : Bounded o (appendLine c (igaugeLine o stat [] 0)) :=
          appendLine_bounded o c _ hc (hl _ (by simp [linesOf, hv]))
        exact appendLine_bounded o _ _ h1 (hl _ (by simp [linesOf, hv]))
      · rw [if_neg hv, fgauge]
        exact appendLine_bounded o c _ hc
          (by rw [ho]; exact hl _ (by simp [linesOf, hv]))
  | fgaugeDeltaOp stat value =>
      rw [apply, FGaugeDelta]
      by_cases hv : value.neg = true
      · rw [if_pos hv, fgauge]
        exact appendLine_bounded o c _ hc
          (by rw [ho]; exact hl _ (by simp [linesOf, hv]))
      · rw [if_neg hv, fgauge]
        exact appendLine_bounded o c _ hc
          (by rw [ho]; exact hl _ (by simp [linesOf, hv]))
  | setAdd stat value =>
      rw [apply, SetAdd]
      exact appendLine_bounded o c _ hc (by rw [ho]; exact hl _ (by simp [linesOf]))
  | flushTick => exact flushTick_bounded o c hc
  | sendStep writeOk =>
      have h := sendStep_frame c writeOk
      exact bounded_of_frame o h.1.1 h.1.2.1 h.1.2.2 hc
  | reportTick => exact bounded_of_frame o rfl rfl rfl hc

theorem foldl_bounded (o : Options) (ops : List Op) :
    ∀ c, Bounded o c → (∀ op ∈ ops, ∀ l ∈ linesOf o op, l.length ≤ o.maxPacketSize) →
      Bounded o (ops.foldl (fun c op => apply op c) c) := by
  induction ops with
  | nil => intro c hc _; exact hc
  | cons op rest ih =>
      intro c hc h
      simp only [List.foldl_cons]
      exact ih _ (apply_bounded o op c hc (h op (by simp)))
        (fun op' hop' l hl => h op' (by simp [hop']) l hl)

theorem newClient_bounded (o : Options) : Bounded o (newClient o) := by
  refine ⟨rfl, ?_, ?_⟩ <;> simp [newClient]

theorem endsNL_line (a b : List Char) (hne : b ≠ []) (hb : b.getLast? = some '\n') :
    EndsNL (a ++ b) := by
  refine ⟨by simp [hne], ?_⟩
  rw [List.getLast?_append, hb]
  rfl

theorem incrLine_endsNL (o : Options) (stat : List Char) (n : Int) :
    EndsNL (incrLine o stat n) :=
  endsNL_line _ ['|', 'c', '\n'] (by decide) (by decide)

theorem timingLine_endsNL (o : Options) (stat : List Char) (n : Int) :
    EndsNL (timingLine o stat n) :=
  endsNL_line _ ['|', 'm', 's', '\n'] (by decide) (by decide)

theorem ptimingLine_endsNL (o : Options) (stat : List Char) (d : Float64) :
    EndsNL (ptimingLine o stat d) :=
  endsNL_line _ ['|', 'm', 's', '\n'] (by decide) (by decide)

theorem igaugeLine_endsNL (o : Options) (stat sign : List Char) (n : Int) :
    EndsNL (igaugeLine o stat sign n) :=
  endsNL_line _ ['|', 'g', '\n'] (by decide) (by decide)

theorem fgaugeLine_endsNL (o : Options) (stat sign : List Char) (v : Float64) :
    EndsNL (fgaugeLine o stat sign v) :=
  endsNL_line _ ['|', 'g', '\n'] (by decide) (by decide)

theorem setLine_endsNL (o : Options) (stat v : List Char) :
    EndsNL (setLine o stat v) :=
  endsNL_line _ ['|', 's', '\n'] (by decide) (by decide)

theorem isPacket_nil : IsPacket [] := ⟨[], by simp, rfl⟩

theorem isPacket_single (l : List Char) (h : EndsNL l) : IsPacket l :=
  ⟨[l], by simpa using h, by simp⟩

theorem isPacket_append (b l : List Char) (hb : IsPacket b) (hl : EndsNL l) :
    IsPacket (b ++ l) := by
  obtain ⟨ls, hls, rfl⟩ := hb
  refine ⟨ls ++ [l], ?_, by simp⟩
  intro x hx
  rcases List.mem_append.mp hx with h | h
  · exact hls x h
  · simpa using (List.mem_singleton.mp h) ▸ hl

theorem appendLine_packet (c : ClientState) (line : List Char)
    (hc : PacketInv c) (hl : EndsNL line) : PacketInv (appendLine c line) := by
  obtain ⟨hbuf, hdisp⟩ := hc
  by_cases hover : c.options.maxPacketSize < c.buf.length + line.length
  · rw [appendLine_overflow c line hover]
    constructor
    · rw [flushBuf_buf]
      simp only [List.drop_left]
      exact isPacket_single line hl
    · intro q hq
      rcases flushBuf_dispatched _ _ _ hq with h | h
      · exact hdisp q h
      · subst h
        simp only [List.take_left]
        exact hbuf
  · rw [appendLine_no_overflow c line (by omega)]
    exact ⟨isPacket_append _ _ hbuf hl, hdisp⟩

theorem flushTick_packet (c : ClientState) (hc : PacketInv c) :
    PacketInv (flushTick c) := by
  obtain ⟨hbuf, hdisp⟩ := hc
  unfold flushTick
  split
  · constructor
    · rw [flushBuf_buf]
      simpa using isPacket_nil
    · intro q hq
      rcases flushBuf_dispatched _ _ _ hq with h | h
      · exact hdisp q h
      · subst h
        simpa using hbuf
  · exact ⟨hbuf, hdisp⟩

theorem packet_of_frame {c d : ClientState} (hbuf : d.buf = c.buf)
    (hdisp : d.dispatched = c.dispatched) (hc : PacketInv c) : PacketInv d := by
  obtain ⟨h1, h2⟩ := hc
  refine ⟨?_, ?_⟩
  · rw [hbuf]; exact h1
  · rw [hdisp]; exact h2

theorem apply_packet (op : Op) (c : ClientState) (hc : PacketInv c) :
    PacketInv (apply op c) := by
  cases op with
  | incr stat count =>
      by_cases hcnt : count = 0
      · simpa [apply, Incr, hcnt] using hc
      · rw [apply, Incr, if_pos hcnt]
        exact appendLine_packet c _ hc (incrLine_endsNL _ _ _)
  | decr stat count =>
      by_cases hcnt : count = 0
      · simpa [apply, Decr, Incr, hcnt] using hc
      · rw [apply, Decr, Incr, if_pos (neg_ne_zero.mpr hcnt)]
        exact appendLine_packet c _ hc (incrLine_endsNL _ _ _)
  | timing stat delta =>
      exact appendLine_packet c _ hc (timingLine_endsNL _ _ _)
  | precisionTiming stat delta =>
      exact appendLine_packet c _ hc (ptimingLine_endsNL _ _ _)
  | gauge stat value =>
      rw [apply, Gauge]
      by_cases hv : value < 0
      · rw [if_pos hv, igauge, igauge]
        exact appendLine_packet _ _
          (appendLine_packet c _ hc (igaugeLine_endsNL _ _ _ _))
          (igaugeLine_endsNL _ _ _ _)
      · rw [if_neg hv, igauge]
        exact appendLine_packet c _ hc (igaugeLine_endsNL _ _ _ _)
  | gaugeDelta stat value =>
      rw [apply, GaugeDelta]
      by_cases hv : value < 0
      · rw [if_pos hv, igauge]
        exact appendLine_packet c _ hc (igaugeLine_endsNL _ _ _ _)
      · rw [if_neg hv, igauge]
        exact appendLine_packet c _ hc (igaugeLine_endsNL _ _ _ _)
  | fgaugeOp stat value =>
      rw [apply, FGauge]
      by_cases hv : value.neg = true
      · rw [if_pos hv, fgauge, igauge]
        exact appendLine_packet _ _
          (appendLine_packet c _ hc (igaugeLine_endsNL _ _ _ _))
          (fgaugeLine_endsNL _ _ _ _)
      · rw [if_neg hv, fgauge]
        exact appendLine_packet c _ hc (fgaugeLine_endsNL _ _ _ _)
  | fgaugeDeltaOp stat value =>
      rw [apply, FGaugeDelta]
      by_cases hv : value.neg = true
      · rw [if_pos hv, fgauge]
        exact appendLine_packet c _ hc (fgaugeLine_endsNL _ _ _ _)
      · rw [if_neg hv, fgauge]
        exact appendLine_packet c _ hc (fgaugeLine_endsNL _ _ _ _)
  | setAdd stat value =>
      exact appendLine_packet c _ hc (setLine_endsNL _ _ _)
  | flushTick => exact flushTick_packet c hc
  | sendStep writeOk =>
      have h := sendStep_frame c writeOk
      exact packet_of_frame h.1.2.1 h.1.2.2 hc
  | reportTick => exact packet_of_frame rfl rfl hc

theorem foldl_packet (ops : List Op) :
    ∀ c, PacketInv c → PacketInv (ops.foldl (fun c op => apply op c) c) := by
  induction ops with
  | nil => exact fun c hc => hc
  | cons op rest ih =>
      intro c hc
      simp only [List.foldl_cons]
      exact ih _ (apply_packet op c hc)

theorem newClient_packet (o : Options) : PacketInv (newClient o) := by
  refine ⟨?_, ?_⟩
  · simpa [newClient] using isPacket_nil
  · simp [newClient]

theorem checkBuf_overall_mono (c : ClientState) (n : Nat) :
    c.lostPacketsOverall ≤ (checkBuf c n).lostPacketsOverall := by
  unfold checkBuf
  split
  · exact flushBuf_overall_mono c n
  · exact le_refl _

theorem appendLine_overall_mono (c : ClientState) (l : List Char) :
    c.lostPacketsOverall ≤ (appendLine c l).lostPacketsOverall :=
  checkBuf_overall_mono _ _

theorem apply_overall_mono (op : Op) (c : ClientState) :
    c.lostPacketsOverall ≤ (apply op c).lostPacketsOverall := by
  cases op with
  | incr stat count =>
      rw [apply, Incr]
      split
      · exact appendLine_overall_mono _ _
      · exact le_refl _
  | decr stat count =>
      rw [apply, Decr, Incr]
      split
      · exact appendLine_overall_mono _ _
      · exact le_refl _
  | timing stat delta => exact appendLine_overall_mono _ _
  | precisionTiming stat delta => exact appendLine_overall_mono _ _
  | gauge stat value =>
      rw [apply, Gauge, igauge]
      refine le_trans ?_ (appendLine_overall_mono _ _)
      split
      · exact appendLine_overall_mono _ _
      · exact le_refl _
  | gaugeDelta stat value =>
      rw [apply, GaugeDelta]
      split <;> exact appendLine_overall_mono _ _
  | fgaugeOp stat value =>
      rw [apply, FGauge, fgauge]
      refine le_trans ?_ (appendLine_overall_mono _ _)
      split
      · exact appendLine_overall_mono _ _
      · exact le_refl _
  | fgaugeDeltaOp stat value =>
      rw [apply, FGaugeDelta]
      split <;> exact appendLine_overall_mono _ _
  | setAdd stat value => exact appendLine_overall_mono _ _
  | flushTick =>
      rw [apply, flushTick]
      split
      · exact flushBuf_overall_mono _ _
      · exact le_refl _
  | sendStep writeOk => exact le_of_eq (sendStep_frame c writeOk).2.2.symm
  | reportTick => exact le_refl _

theorem intercalate_cons₂ (s a b : List Char) (t : List (List Char)) :
    List.intercalate s (a :: b :: t) = a ++ s ++ List.intercalate s (b :: t) := by
  simp [List.intercalate, List.intersperse]

theorem flatten_dropLast_intercalate (ls : List (List Char)) :
    (∀ l ∈ ls, EndsNL l) →
      ls.flatten.dropLast = List.intercalate ['\n'] (ls.map fun l => l.dropLast) := by
  induction ls with
  | nil => intro _; simp [List.intercalate]
  | cons l t ih =>
    intro hls
    cases t with
    | nil => simp [List.intercalate]
    | cons l' t' =>
      have h1 : l' ≠ [] := (hls l' (by simp)).1
      have hne : (l' :: t').flatten ≠ [] := by
        rw [List.flatten_cons]
        simp [h1]
      have hlast : l.dropLast ++ ['\n'] = l :=
        List.dropLast_append_getLast? '\n'
          (by rw [Option.mem_def]; exact (hls l (by simp)).2)
      rw [List.flatten_cons, List.dropLast_append_of_ne_nil _ hne,
        ih (fun x hx => hls x (List.mem_cons_of_mem l hx))]
      simp only [List.map_cons]
      rw [intercalate_cons₂, hlast]

theorem flushBuf_counters_room (c : ClientState) (n : Nat)
    (h : c.sendQueue.length < c.options.sendQueueCapacity) :
    (flushBuf c n).lostPacketsPeriod = c.lostPacketsPeriod ∧
    (flushBuf c n).lostPacketsOverall = c.lostPacketsOverall ∧
    (flushBuf c n).sendQueue.length ≤ c.sendQueue.length + 1 ∧
    (flushBuf c n).options = c.options := by
  unfold flushBuf
  rw [if_pos h]
  refine ⟨rfl, rfl, ?_, rfl⟩
  simp

theorem appendLine_counters_room (c : ClientState) (l : List Char)
    (h : c.sendQueue.length < c.options.sendQueueCapacity) :
    (appendLine c l).lostPacketsPeriod = c.lostPacketsPeriod ∧
    (appendLine c l).lostPacketsOverall = c.lostPacketsOverall ∧
    (appendLine c l).sendQueue.length ≤ c.sendQueue.length + 1 ∧
    (appendLine c l).options = c.options := by
  unfold appendLine checkBuf
  split
  · exact flushBuf_counters_room _ _ h
  · refine ⟨rfl, rfl, ?_, rfl⟩
    simp

theorem twoAppend_counters_room (c : ClientState) (l₁ l₂ : List Char)
    (h : c.sendQueue.length + 2 ≤ c.options.sendQueueCapacity) :
    (appendLine (appendLine c l₁) l₂).lostPacketsPeriod = c.lostPacketsPeriod ∧
    (appendLine (appendLine c l₁) l₂).lostPacketsOverall = c.lostPacketsOverall := by
  have h1 := appendLine_counters_room c l₁ (by omega)
  have h2 := appendLine_counters_room (appendLine c l₁) l₂ (by rw [h1.2.2.2]; omega)
  exact ⟨h2.1.trans h1.1, h2.2.1.trans h1.2.1⟩

theorem apply_counters_room (op : Op) (c : ClientState) (hop : op ≠ Op.reportTick)
    (h : c.sendQueue.length + 2 ≤ c.options.sendQueueCapacity) :
    (apply op c).lostPacketsPeriod = c.lostPacketsPeriod ∧
    (apply op c).lostPacketsOverall = c.lostPacketsOverall := by
  have one : ∀ l, (appendLine c l).lostPacketsPeriod = c.lostPacketsPeriod ∧
      (appendLine c l).lostPacketsOverall = c.lostPacketsOverall := fun l =>
    ⟨(appendLine_counters_room c l (by omega)).1,
     (appendLine_counters_room c l (by omega)).2.1⟩
  cases op with
  | incr stat count =>
      rw [apply, Incr]
      split
      · exact one _
      · exact ⟨rfl, rfl⟩
  | decr stat count =>
      rw [apply, Decr, Incr]
      split
      · exact one _
      · exact ⟨rfl, rfl⟩
  | timing stat delta => exact one _
  | precisionTiming stat delta => exact one _
  | gauge stat value =>
      rw [apply, Gauge]
      split
      · exact twoAppend_counters_room c _ _ h
      · exact one _
  | gaugeDelta stat value =>
      rw [apply, GaugeDelta]
      split <;> exact one _
  | fgaugeOp stat value =>
      rw [apply, FGauge]
      split
      · exact twoAppend_counters_room c _ _ h
      · exact one _
  | fgaugeDeltaOp stat value =>
      rw [apply, FGaugeDelta]
      split <;> exact one _
  | setAdd stat value => exact one _
  | flushTick =>
      rw [apply, flushTick]
      split
      · exact ⟨(flushBuf_counters_room c _ (by omega)).1,
          (flushBuf_counters_room c _ (by omega)).2.1⟩
      · exact ⟨rfl, rfl⟩
  | sendStep writeOk => exact ⟨(sendStep_frame c writeOk).2.1, (sendStep_frame c writeOk).2.2⟩
  | reportTick => exact absurd rfl hop

/-- Claim C1 fails as stated: with max packet size 1, two increments of the
6-byte line a:1|c\n hand the queue a 6-byte buffer (the deferred overflow
line is itself larger than the max packet size and is dispatched whole by
the next overflow check). -/
theorem dispatched_can_exceed_maxPacketSize :
    ∃ q ∈ (run cexOpts cexOps).dispatched, cexOpts.maxPacketSize < q.length := by
  decide

/-- Claim C1 (amended): provided every emitted line is at most the max
packet size N, every buffer handed to the dispatch queue over any run —
whether by the post-append overflow check or by a timer/shutdown flush —
contains at most N bytes. -/
theorem dispatched_le_maxPacketSize (o : Options) (ops : List Op)
    (h : ∀ op ∈ ops, ∀ l ∈ linesOf o op, l.length ≤ o.maxPacketSize) :
    ∀ q ∈ (run o ops).dispatched, q.length ≤ o.maxPacketSize :=
  fun q hq => (foldl_bounded o ops (newClient o) (newClient_bounded o) h).2.2 q hq

/-- Witness for C1's amended theorem at a concrete run. -/
theorem dispatched_le_maxPacketSize_witness :
    (∀ op ∈ witOps1, ∀ l ∈ linesOf witOpts1 op, l.length ≤ witOpts1.maxPacketSize) ∧
    ∀ q ∈ (run witOpts1 witOps1).dispatched, q.length ≤ witOpts1.maxPacketSize :=
  ⟨by decide, dispatched_le_maxPacketSize witOpts1 witOps1 (by decide)⟩

/-- Claim C2: when appending one line pushes the buffer over the max packet
size, the buffer is split at the pre-append length: exactly the bytes
present before the append are handed to the queue, and the overflowing
line, intact, is the entire content of the replacement buffer (so it starts
the next packet). -/
theorem overflow_split_exact (c : ClientState) (line : List Char)
    (hover : c.options.maxPacketSize < c.buf.length + line.length)
    (hroom : c.sendQueue.length < c.options.sendQueueCapacity) :
    (appendLine c line).buf = line ∧
    (appendLine c line).sendQueue = c.sendQueue ++ [c.buf] ∧
    (appendLine c line).dispatched = c.dispatched ++ [c.buf] := by
  refine ⟨appendLine_split_buf c line hover, appendLine_split_queue c line hover hroom, ?_⟩
  rw [appendLine_overflow c line hover]
  unfold flushBuf
  rw [if_pos hroom]
  simp [List.take_left]

/-- Witness for C2 at a concrete overflowing append. -/
theorem overflow_split_exact_witness :
    (c2state.options.maxPacketSize < c2state.buf.length + c2line.length) ∧
    (c2state.sendQueue.length < c2state.options.sendQueueCapacity) ∧
    (appendLine c2state c2line).buf = c2line ∧
    (appendLine c2state c2line).sendQueue = c2state.sendQueue ++ [c2state.buf] ∧
    (appendLine c2state c2line).dispatched = c2state.dispatched ++ [c2state.buf] :=
  ⟨by decide, by decide,
    (overflow_split_exact c2state c2line (by decide) (by decide)).1,
    (overflow_split_exact c2state c2line (by decide) (by decide)).2.1,
    (overflow_split_exact c2state c2line (by decide) (by decide)).2.2⟩

/-- Claim C3: a flush attempted while the send queue is full increments
both loss counters by exactly one and discards the flushed bytes (nothing
is enqueued, nothing is handed to the network side, and the bytes leave the
buffer); the emission call itself is a total function of the state — it is
never blocked and has no error result. -/
theorem queueFull_counts_loss (c : ClientState) (n : Nat)
    (hfull : c.options.sendQueueCapacity ≤ c.sendQueue.length) :
    (flushBuf c n).lostPacketsPeriod = c.lostPacketsPeriod + 1 ∧
    (flushBuf c n).lostPacketsOverall = c.lostPacketsOverall + 1 ∧
    (flushBuf c n).sendQueue = c.sendQueue ∧
    (flushBuf c n).dispatched = c.dispatched ∧
    (flushBuf c n).buf = c.buf.drop n := by
  unfold flushBuf
  rw [if_neg (by omega)]
  exact ⟨rfl, rfl, rfl, rfl, rfl⟩

/-- Witness for C3 at a concrete full-queue flush. -/
theorem queueFull_counts_loss_witness :
    (c3state.options.sendQueueCapacity ≤ c3state.sendQueue.length) ∧
    (flushBuf c3state 6).lostPacketsPeriod = c3state.lostPacketsPeriod + 1 ∧
    (flushBuf c3state 6).lostPacketsOverall = c3state.lostPacketsOverall + 1 ∧
    (flushBuf c3state 6).sendQueue = c3state.sendQueue ∧
    (flushBuf c3state 6).dispatched = c3state.dispatched ∧
    (flushBuf c3state 6).buf = c3state.buf.drop 6 :=
  ⟨by decide,
    (queueFull_counts_loss c3state 6 (by decide)).1,
    (queueFull_counts_loss c3state 6 (by decide)).2.1,
    (queueFull_counts_loss c3state 6 (by decide)).2.2.1,
    (queueFull_counts_loss c3state 6 (by decide)).2.2.2.1,
    (queueFull_counts_loss c3state 6 (by decide)).2.2.2.2⟩

/-- Claim C4: a send-worker iteration never changes either loss counter
(whether the write succeeds or fails); on a write failure the dequeued
buffer's datagram is not transmitted and the buffer is not re-queued — the
worker just moves on to reconnecting; and, conversely, no operation other
than a report tick changes either counter as long as the queue has room for
the flushes the operation can attempt — the counters move only on
dispatch-queue overflow and on the tick's swap. -/
theorem writeError_counters_frame (c : ClientState) :
    (∀ writeOk : Bool,
       (sendStep c writeOk).2.lostPacketsPeriod = c.lostPacketsPeriod ∧
       (sendStep c writeOk).2.lostPacketsOverall = c.lostPacketsOverall) ∧
    (∀ (b : List Char) (rest : List (List Char)),
       c.sendQueue = b :: rest → 0 < b.length →
       (sendStep c false).1 = none ∧ (sendStep c false).2.sendQueue = rest) ∧
    (∀ (op : Op) (d : ClientState), op ≠ Op.reportTick →
       d.sendQueue.length + 2 ≤ d.options.sendQueueCapacity →
       (apply op d).lostPacketsPeriod = d.lostPacketsPeriod ∧
       (apply op d).lostPacketsOverall = d.lostPacketsOverall) := by
  refine ⟨?_, ?_, fun op d hop h => apply_counters_room op d hop h⟩
  · intro writeOk
    exact ⟨(sendStep_frame c writeOk).2.1, (sendStep_frame c writeOk).2.2⟩
  · intro b rest hq hb
    unfold sendStep
    rw [hq]
    simp [hb]

/-- Witness for C4 at a concrete failing write. -/
theorem writeError_counters_frame_witness :
    ((sendStep c4state false).2.lostPacketsPeriod = c4state.lostPacketsPeriod ∧
     (sendStep c4state false).2.lostPacketsOverall = c4state.lostPacketsOverall) ∧
    ((sendStep c4state false).1 = none ∧ (sendStep c4state false).2.sendQueue = []) ∧
    ((apply (Op.incr ['a'] 1) c4state).lostPacketsPeriod = c4state.lostPacketsPeriod ∧
     (apply (Op.incr ['a'] 1) c4state).lostPacketsOverall = c4state.lostPacketsOverall) :=
  ⟨(writeError_counters_frame c4state).1 false,
   (writeError_counters_frame c4state).2.1 ['a', ':', '1', '|', 'c', '\n'] [] rfl (by decide),
   (writeError_counters_frame c4state).2.2 (Op.incr ['a'] 1) c4state (by decide) (by decide)⟩

/-- Claim C5: a report tick swaps the period loss counter to zero and emits
the diagnostic record exactly when the swapped value was positive; it
leaves the overall counter unchanged, and the overall counter read by
GetLostPackets never decreases under any pipeline operation. -/
theorem reportTick_swap_and_monotone :
    (∀ c : ClientState,
       (reportTick c).1.lostPacketsPeriod = 0 ∧
       ((reportTick c).2 = true ↔ 0 < c.lostPacketsPeriod) ∧
       (reportTick c).1.lostPacketsOverall = c.lostPacketsOverall) ∧
    (∀ (op : Op) (c : ClientState), getLostPackets c ≤ getLostPackets (apply op c)) := by
  constructor
  · intro c
    refine ⟨rfl, ?_, rfl⟩
    simp [reportTick]
  · intro op c
    exact apply_overall_mono op c

/-- Claim C6: a negative Gauge (and FGauge) appends exactly two gauge lines
in order — a reset-to-zero line with value 0, then a line carrying the
literal negative value — while a non-negative one appends exactly one line
with the literal value.  Stated on the buffer contents under the
side-condition that the appended lines fit in the packet (so no overflow
flush moves them out of the buffer mid-statement). -/
theorem gauge_negative_emits_reset_then_value (c : ClientState) (stat : List Char) :
    (∀ v : Int, v < 0 →
       c.buf.length + ((igaugeLine c.options stat [] 0).length +
         (igaugeLine c.options stat [] v).length) ≤ c.options.maxPacketSize →
       (Gauge c stat v).buf =
         c.buf ++ igaugeLine c.options stat [] 0 ++ igaugeLine c.options stat [] v) ∧
    (∀ v : Int, 0 ≤ v →
       c.buf.length + (igaugeLine c.options stat [] v).length ≤ c.options.maxPacketSize →
       (Gauge c stat v).buf = c.buf ++ igaugeLine c.options stat [] v) ∧
    (∀ v : Float64, v.neg = true →
       c.buf.length + ((igaugeLine c.options stat [] 0).length +
         (fgaugeLine c.options stat [] v).length) ≤ c.options.maxPacketSize →
       (FGauge c stat v).buf =
         c.buf ++ igaugeLine c.options stat [] 0 ++ fgaugeLine c.options stat [] v) ∧
    (∀ v : Float64, v.neg = false →
       c.buf.length + (fgaugeLine c.options stat [] v).length ≤ c.options.maxPacketSize →
       (FGauge c stat v).buf = c.buf ++ fgaugeLine c.options stat [] v) := by
  refine ⟨?_, ?_, ?_, ?_⟩
  · intro v hv h
    have h0 : c.buf.length + (igaugeLine c.options stat [] 0).length ≤
        c.options.maxPacketSize := by omega
    rw [Gauge, if_pos hv, igauge, igauge, appendLine_no_overflow c _ h0]
    rw [appendLine_no_overflow _ _ (by simp only [List.length_append]; omega)]
  · intro v hv h
    rw [Gauge, if_neg (not_lt.mpr hv), igauge, appendLine_no_overflow c _ h]
  · intro v hv h
    have h0 : c.buf.length + (igaugeLine c.options stat [] 0).length ≤
        c.options.maxPacketSize := by omega
    rw [FGauge, if_pos hv, fgauge, igauge, appendLine_no_overflow c _ h0]
    rw [appendLine_no_overflow _ _ (by simp only [List.length_append]; omega)]
  · intro v hv h
    rw [FGauge, if_neg (by simp [hv]), fgauge, appendLine_no_overflow c _ h]

/-- Witness for C6 at a concrete negative gauge. -/
theorem gauge_negative_emits_reset_then_value_witness :
    ((-5 : Int) < 0) ∧
    ((newClient witOpts6).buf.length +
       ((igaugeLine (newClient witOpts6).options ['x'] [] 0).length +
        (igaugeLine (newClient witOpts6).options ['x'] [] (-5)).length) ≤
      (newClient witOpts6).options.maxPacketSize) ∧
    (Gauge (newClient witOpts6) ['x'] (-5)).buf =
      (newClient witOpts6).buf ++ igaugeLine (newClient witOpts6).options ['x'] [] 0 ++
        igaugeLine (newClient witOpts6).options ['x'] [] (-5) :=
  ⟨by decide, by decide,
    (gauge_negative_emits_reset_then_value (newClient witOpts6) ['x']).1 (-5)
      (by decide) (by decide)⟩

/-- Claim C7: GaugeDelta (and FGaugeDelta) appends exactly one gauge line:
for v ≥ 0 the value is written with an explicit leading '+', for v < 0 the
value is the natural negative decimal with no extra sign byte.  Same
no-overflow side-condition as C6. -/
theorem gaugeDelta_sign_rendering (c : ClientState) (stat : List Char) :
    (∀ v : Int, 0 ≤ v →
       c.buf.length + (igaugeLine c.options stat ['+'] v).length ≤ c.options.maxPacketSize →
       (GaugeDelta c stat v).buf = c.buf ++ igaugeLine c.options stat ['+'] v) ∧
    (∀ v : Int, v < 0 →
       c.buf.length + (igaugeLine c.options stat [] v).length ≤ c.options.maxPacketSize →
       (GaugeDelta c stat v).buf = c.buf ++ igaugeLine c.options stat [] v) ∧
    (∀ v : Float64, v.neg = false →
       c.buf.length + (fgaugeLine c.options stat ['+'] v).length ≤ c.options.maxPacketSize →
       (FGaugeDelta c stat v).buf = c.buf ++ fgaugeLine c.options stat ['+'] v) ∧
    (∀ v : Float64, v.neg = true →
       c.buf.length + (fgaugeLine c.options stat [] v).length ≤ c.options.maxPacketSize →
       (FGaugeDelta c stat v).buf = c.buf ++ fgaugeLine c.options stat [] v) := by
  refine ⟨?_, ?_, ?_, ?_⟩
  · intro v hv h
    rw [GaugeDelta, if_neg (not_lt.mpr hv), igauge, appendLine_no_overflow c _ h]
  · intro v hv h
    rw [GaugeDelta, if_pos hv, igauge, appendLine_no_overflow c _ h]
  · intro v hv h
    rw [FGaugeDelta, if_neg (by simp [hv]), fgauge, appendLine_no_overflow c _ h]
  · intro v hv h
    rw [FGaugeDelta, if_pos hv, fgauge, appendLine_no_overflow c _ h]

/-- Witness for C7 at a concrete non-negative delta. -/
theorem gaugeDelta_sign_rendering_witness :
    ((0 : Int) ≤ 33) ∧
    ((newClient witOpts7).buf.length +
       (igaugeLine (newClient witOpts7).options ['x'] ['+'] 33).length ≤
      (newClient witOpts7).options.maxPacketSize) ∧
    (GaugeDelta (newClient witOpts7) ['x'] 33).buf =
      (newClient witOpts7).buf ++ igaugeLine (newClient witOpts7).options ['x'] ['+'] 33 :=
  ⟨by decide, by decide,
    (gaugeDelta_sign_rendering (newClient witOpts7) ['x']).1 33 (by decide) (by decide)⟩

/-- Claim C8: every buffer handed to the dispatch queue is a concatenation
of complete newline-terminated lines; a worker that dequeues a non-empty
buffer writes exactly the buffer minus its final byte as the datagram; and
for any such concatenation, dropping the final byte is the lines joined by
a newline separator with no trailing newline. -/
theorem packets_are_lines_and_datagram_drops_newline (o : Options) :
    (∀ ops : List Op, ∀ q ∈ (run o ops).dispatched, IsPacket q) ∧
    (∀ (c : ClientState) (b : List Char) (rest : List (List Char)),
       c.sendQueue = b :: rest → 0 < b.length →
       (sendStep c true).1 = some b.dropLast) ∧
    (∀ ls : List (List Char), (∀ l ∈ ls, EndsNL l) →
       ls.flatten.dropLast = List.intercalate ['\n'] (ls.map fun l => l.dropLast)) := by
  refine ⟨?_, ?_, flatten_dropLast_intercalate⟩
  · intro ops q hq
    exact (foldl_packet ops (newClient o) (newClient_packet o)).2 q hq
  · intro c b rest hq hb
    unfold sendStep
    rw [hq]
    simp [hb]

/-- Witness for C8 at a concrete run and dequeue. -/
theorem packets_are_lines_and_datagram_drops_newline_witness :
    IsPacket (['a', ':', '1', '|', 'c', '\n'] : List Char) ∧
    (sendStep c8state true).1 = some (['a', ':', '1', '|', 'c', '\n'] : List Char).dropLast ∧
    (([['a', ':', '1', '|', 'c', '\n']] : List (List Char)).flatten.dropLast =
      List.intercalate ['\n']
        (([['a', ':', '1', '|', 'c', '\n']] : List (List Char)).map fun l => l.dropLast)) :=
  ⟨(packets_are_lines_and_datagram_drops_newline c8opts).1
      c8ops ['a', ':', '1', '|', 'c', '\n'] (by decide),
   (packets_are_lines_and_datagram_drops_newline c8opts).2.1 c8state
      ['a', ':', '1', '|', 'c', '\n'] [] rfl (by decide),
   (packets_are_lines_and_datagram_drops_newline c8opts).2.2
      [['a', ':', '1', '|', 'c', '\n']] (by decide)⟩

/-- Claim C9: a zero-valued counter increment (Incr with 0, and Decr with
0) appends no line and leaves the entire client state — buffer, pool,
queue, counters — unchanged. -/
theorem zero_incr_decr_noop (c : ClientState) (stat : List Char) :
    Incr c stat 0 = c ∧ Decr c stat 0 = c := by
  constructor
  · simp [Incr]
  · simp [Decr, Incr]

/-- Claim C10: on a client whose shutdown channel is open, the first Close
succeeds and closes the channel; a second Close on the resulting client
panics (Go: close of closed channel), modelled as the error branch, rather
than returning an error value. -/
theorem close_twice_panics (c : ClientState) (h : c.shutdown = false) :
    Close c = Except.ok { c with shutdown := true } ∧
    Close { c with shutdown := true } = Except.error () := by
  constructor
  · simp [Close, closeChan, h]
  · simp [Close, closeChan]

/-- Witness for C10 on a freshly constructed client. -/
theorem close_twice_panics_witness :
    Close (newClient witOpts10) = Except.ok { newClient witOpts10 with shutdown := true } ∧
    Close { newClient witOpts10 with shutdown := true } = Except.error () :=
  close_twice_panics (newClient witOpts10) rfl

end GoStatsd
